import Mathlib

/-!
Verification of the clarity-ai core: the ephemeral result store
(`src/lib/analysis-storage.ts`, download route) and the archive analysis
pipeline (`lib/zip-analyzer.ts`: `analyzeZipFile`, `calculateFileTypeBreakdown`,
`categorizeFileType`).

Shallow embedding conventions:
* The file-per-token storage directory is modelled as an association list
  `Store` from token strings to stored records; `writeFileSync` on
  `${token}.json` is an insert-or-overwrite, `unlinkSync` an erase,
  `readdirSync` the key list.
* Clock times and timestamps are naturals (milliseconds).  JavaScript's
  `Date.now() - data.timestamp > EXPIRY_TIME` agrees with the truncated
  natural subtraction used here: when `now < timestamp` both sides of the
  comparison are `false`.
* Filesystem fallibility is modelled by explicit `Bool` outcome flags on the
  primitive operations; the `try`/`catch` wrappers of the source are the
  `match` fallbacks, so every store operation is a total function.
* Exact byte sizes are naturals; the MB-scale figures of the report are
  rationals (`bytes / 1048576`).  A non-finite JavaScript number (the `0/0`
  `NaN` arising from an unguarded division) is modelled as `none`.
* `toFixed(d)` followed by `parseFloat` is rounding half away from zero to
  `d` decimals; all values it is applied to here are nonnegative, where that
  agrees with `round` (half up).
-/

/-- Stored record: mirrors `AnalysisData` of `src/lib/analysis-storage.ts`
(`report`, `cleanedZipBuffer`, `timestamp`).  The report payload and the
archive bytes are opaque to the store and modelled as a natural and a byte
list. -/
structure AnalysisData where
  report : Nat
  buffer : List Nat
  timestamp : Nat
deriving DecidableEq, Repr

/-- The storage directory: one `${token}.json` file per token. -/
abbrev Store := List (String × AnalysisData)

/-- `EXPIRY_TIME = 10 * 60 * 1000` (ten minutes in milliseconds). -/
def EXPIRY_TIME : Nat := 10 * 60 * 1000

/-- `existsSync` + `readFileSync` of `${token}.json`: the record stored under
`token`, if any. -/
def lookupTok : Store → String → Option AnalysisData
  | [], _ => none
  | (k, d) :: rest, t => if k = t then some d else lookupTok rest t

/-- `unlinkSync` of `${token}.json`: removes the binding for `token`. -/
def eraseTok : Store → String → Store
  | [], _ => []
  | (k, d) :: rest, t => if k = t then eraseTok rest t else (k, d) :: eraseTok rest t

/-- `analysisResults.set`: `writeFileSync(filePath, JSON.stringify(storageData))`,
an unconditional create-or-overwrite.  `writeOk = false` models the write
throwing; the surrounding `try`/`catch` swallows the error and the store is
left unchanged. -/
def storeSet (writeOk : Bool) (s : Store) (t : String) (d : AnalysisData) : Store :=
  if writeOk then (t, d) :: eraseTok s t else s

/-- `analysisResults.delete`: `existsSync` then `unlinkSync` inside
`try`/`catch`.  `unlinkOk = false` models the unlink throwing (caught,
store unchanged). -/
def storeDelete (unlinkOk : Bool) (s : Store) (t : String) : Store :=
  match lookupTok s t with
  | none => s
  | some _ => if unlinkOk then eraseTok s t else s

/-- `analysisResults.get` at clock time `now`: returns the retrieved record
(or `none`) together with the store state it leaves behind.  Mirrors the
source exactly: missing file gives `undefined`; a read/parse failure
(`readOk = false`) is caught and gives `undefined`; an expired record
(`now - timestamp > EXPIRY_TIME`) is deleted and `undefined` is returned;
otherwise the record is returned and — notably — NOT deleted. -/
def storeGet (readOk unlinkOk : Bool) (s : Store) (t : String) (now : Nat) :
    Option AnalysisData × Store :=
  match lookupTok s t with
  | none => (none, s)
  | some d =>
    if readOk then
      if now - d.timestamp > EXPIRY_TIME then (none, storeDelete unlinkOk s t)
      else (some d, s)
    else (none, s)

/-- `analysisResults.keys`: `readdirSync` filtered to `.json` files; a
failure (`readdirOk = false`) is caught and yields `[]`. -/
def storeKeys (readdirOk : Bool) (s : Store) : List String :=
  if readdirOk then s.map Prod.fst else []

/-- Response of the download route: the archive bytes, or the 404
"Invalid or expired download token". -/
inductive DlResponse where
  | payload (bytes : List Nat)
  | notFound
deriving DecidableEq, Repr

/-- `GET /api/download/[token]` (the handler importing
`@/lib/analysis-storage`): `analysisResults.get(token)`; on `undefined` a
404; otherwise `analysisResults.delete(token)` ("one-time download") and the
archive bytes are returned. -/
def downloadGET (s : Store) (t : String) (now : Nat) : DlResponse × Store :=
  match storeGet true true s t now with
  | (none, s') => (DlResponse.notFound, s')
  | (some d, s') => (DlResponse.payload d.buffer, storeDelete true s' t)

/-- One iteration of the cleanup interval body: `analysisResults.get(token)`
followed by `if (data && Date.now() - data.timestamp > EXPIRY_TIME)
analysisResults.delete(token)`. -/
def sweepStep (s : Store) (t : String) (now : Nat) : Store :=
  let r := storeGet true true s t now
  match r.1 with
  | some d => if now - d.timestamp > EXPIRY_TIME then storeDelete true r.2 t else r.2
  | none => r.2

/-- The periodic cleanup: iterates the loop body over
`analysisResults.keys()`. -/
def sweep (s : Store) (now : Nat) : Store :=
  (storeKeys true s).foldl (fun acc t => sweepStep acc t now) s

-- Basic store lemmas

theorem lookupTok_eraseTok (s : Store) (t : String) : lookupTok (eraseTok s t) t = none := by
  induction s with
  | nil => rfl
  | cons kd rest ih =>
    obtain ⟨k, d⟩ := kd
    by_cases h : k = t
    · simpa [eraseTok, h] using ih
    · simpa [eraseTok, lookupTok, h] using ih

theorem eraseTok_of_absent (s : Store) (t : String) (h : lookupTok s t = none) :
    eraseTok s t = s := by
  induction s with
  | nil => rfl
  | cons kd rest ih =>
    obtain ⟨k, d⟩ := kd
    by_cases hk : k = t
    · simp [lookupTok, hk] at h
    · simp only [lookupTok, if_neg hk] at h
      simp [eraseTok, hk, ih h]

theorem lookupTok_eraseTok_ne (s : Store) (t u : String) (h : u ≠ t) :
    lookupTok (eraseTok s t) u = lookupTok s u := by
  induction s with
  | nil => rfl
  | cons kd rest ih =>
    obtain ⟨k, d⟩ := kd
    by_cases hk : k = t
    · subst hk
      have hku : ¬(k = u) := fun he => h he.symm
      simp [eraseTok, lookupTok, hku, ih]
    · by_cases hku : k = u
      · simp [eraseTok, lookupTok, hk, hku, h]
      · simp [eraseTok, lookupTok, hk, hku, ih]

theorem lookupTok_eq_none_iff (s : Store) (t : String) :
    lookupTok s t = none ↔ t ∉ s.map Prod.fst := by
  induction s with
  | nil => simp [lookupTok]
  | cons kd rest ih =>
    obtain ⟨k, d⟩ := kd
    by_cases hk : k = t
    · simp [lookupTok, hk]
    · rw [List.map_cons, List.mem_cons, not_or]
      simp only [lookupTok, if_neg hk]
      rw [ih]
      constructor
      · intro h; exact ⟨fun he => hk he.symm, h⟩
      · intro h; exact h.2

/-- Normal form of one cleanup iteration: erase the token exactly when its
record is strictly older than the TTL (the loop body's second `delete` branch
is dead code, because a `get` that returns data has already checked
freshness at the same clock reading). -/
theorem sweepStep_eq (s : Store) (t : String) (now : Nat) :
    sweepStep s t now =
      match lookupTok s t with
      | none => s
      | some d => if now - d.timestamp > EXPIRY_TIME then eraseTok s t else s := by
  cases h : lookupTok s t with
  | none => simp [sweepStep, storeGet, h]
  | some d =>
    by_cases he : now - d.timestamp > EXPIRY_TIME
    · simp [sweepStep, storeGet, storeDelete, h, he]
    · simp [sweepStep, storeGet, h, he]

theorem sweepStep_cons (s : Store) (k : String) (d : AnalysisData) (t : String)
    (now : Nat) (h : k ≠ t) :
    sweepStep ((k, d) :: s) t now = (k, d) :: sweepStep s t now := by
  rw [sweepStep_eq, sweepStep_eq]
  cases hl : lookupTok s t with
  | none => simp [lookupTok, h, hl]
  | some d' =>
    by_cases he : now - d'.timestamp > EXPIRY_TIME
    · simp [lookupTok, eraseTok, h, hl, he]
    · simp [lookupTok, h, hl, he]

theorem foldl_sweepStep_cons (ks : List String) (k : String) (d : AnalysisData)
    (s : Store) (now : Nat) (hk : k ∉ ks) :
    ks.foldl (fun acc t => sweepStep acc t now) ((k, d) :: s) =
      (k, d) :: ks.foldl (fun acc t => sweepStep acc t now) s := by
  induction ks generalizing s with
  | nil => rfl
  | cons t ts ih =>
    have hkt : k ≠ t := fun he => hk (by simp [he])
    have hkts : k ∉ ts := fun hm => hk (by simp [hm])
    simp only [List.foldl_cons, sweepStep_cons s k d t now hkt]
    exact ih (sweepStep s t now) hkts

/-- The periodic cleanup keeps exactly the records no older than the TTL
(on a store with one file per token, i.e. distinct keys). -/
theorem sweep_eq_filter (s : Store) (now : Nat) (h : (s.map Prod.fst).Nodup) :
    sweep s now = s.filter (fun kd => decide (now ≤ kd.2.timestamp + EXPIRY_TIME)) := by
  induction s with
  | nil => rfl
  | cons kd rest ih =>
    obtain ⟨k, d⟩ := kd
    simp only [List.map_cons, List.nodup_cons] at h
    obtain ⟨hk, hrest⟩ := h
    have habs : lookupTok rest k = none := (lookupTok_eq_none_iff rest k).mpr hk
    have hstep : sweepStep ((k, d) :: rest) k now =
        if now - d.timestamp > EXPIRY_TIME then rest else (k, d) :: rest := by
      rw [sweepStep_eq]
      simp [lookupTok, eraseTok, eraseTok_of_absent rest k habs]
    have hrw : sweep ((k, d) :: rest) now =
        (rest.map Prod.fst).foldl (fun acc t => sweepStep acc t now)
          (sweepStep ((k, d) :: rest) k now) := rfl
    have hrest' : (rest.map Prod.fst).foldl (fun acc t => sweepStep acc t now) rest
        = sweep rest now := rfl
    by_cases he : now - d.timestamp > EXPIRY_TIME
    · have hout : ¬ (now ≤ d.timestamp + EXPIRY_TIME) := by omega
      rw [hrw, hstep, if_pos he, hrest', ih hrest]
      simp [List.filter_cons, hout]
    · have hin : now ≤ d.timestamp + EXPIRY_TIME := by omega
      rw [hrw, hstep, if_neg he,
        foldl_sweepStep_cons (rest.map Prod.fst) k d rest now hk, hrest', ih hrest]
      simp [List.filter_cons, hin]

theorem storeGet_succ (readOk unlinkOk : Bool) (s : Store) (t : String) (now : Nat)
    (d : AnalysisData) (h : (storeGet readOk unlinkOk s t now).1 = some d) :
    lookupTok s t = some d ∧ (storeGet readOk unlinkOk s t now).2 = s := by
  cases hl : lookupTok s t with
  | none => simp [storeGet, hl] at h
  | some d' =>
    cases readOk with
    | false => simp [storeGet, hl] at h
    | true =>
      by_cases he : now - d'.timestamp > EXPIRY_TIME
      · simp [storeGet, hl, he] at h
      · have hd : d' = d := by simpa [storeGet, hl, he] using h
        subst hd
        exact ⟨hl ▸ rfl, by simp [storeGet, hl, he]⟩

/-- Concrete records used by the concrete-input theorems below. -/
def dRec : AnalysisData := ⟨7, [1, 2, 3], 0⟩

def dRec2 : AnalysisData := ⟨8, [9], 1⟩

/-- C1 counterexample: a fresh token whose first `analysisResults.get`
succeeds is NOT removed by that `get` — an immediately following `get` with
the same token succeeds again, contradicting the claim that a successful
retrieval is destructive at the store level. -/
theorem C1_get_not_destructive_counterexample :
    (storeGet true true [("T1", dRec)] "T1" 5).1 = some dRec ∧
    (storeGet true true (storeGet true true [("T1", dRec)] "T1" 5).2 "T1" 5).1 = some dRec := by
  constructor <;> decide

/-- C1 (amended): the store's `get` leaves a fresh record in place (it is
not destructive on success); the one-shot semantics lives in the download
route, which explicitly deletes the token after a successful retrieval, so a
second download request with the same token — at any later clock reading —
gets the not-found response. -/
theorem C1_one_shot_via_route :
    (∀ (s : Store) (t : String) (now : Nat) (d : AnalysisData),
        (storeGet true true s t now).1 = some d → (storeGet true true s t now).2 = s) ∧
    (∀ (s : Store) (t : String) (now now' : Nat) (b : List Nat),
        (downloadGET s t now).1 = DlResponse.payload b →
        (downloadGET (downloadGET s t now).2 t now').1 = DlResponse.notFound) := by
  constructor
  · intro s t now d h
    exact (storeGet_succ true true s t now d h).2
  · intro s t now now' b h
    cases hg : storeGet true true s t now with
    | mk r s' =>
      cases r with
      | none => simp [downloadGET, hg] at h
      | some d =>
        have hsucc := storeGet_succ true true s t now d (by rw [hg])
        have hs' : s' = s := by
          have := hsucc.2; rw [hg] at this; exact this
        have hdel : (downloadGET s t now).2 = storeDelete true s' t := by
          simp [downloadGET, hg]
        have hlook : lookupTok (storeDelete true s' t) t = none := by
          rw [hs']
          simp only [storeDelete, hsucc.1]
          exact lookupTok_eraseTok s t
        rw [hdel]
        simp [downloadGET, storeGet, hlook]

/-- C1 witness: concrete single-record store; the first `get` leaves the
store unchanged, and a second download after a successful download is a 404. -/
theorem C1_one_shot_via_route_witness :
    (storeGet true true [("T1", dRec)] "T1" 5).2 = [("T1", dRec)] ∧
    (downloadGET (downloadGET [("T1", dRec)] "T1" 5).2 "T1" 6).1 = DlResponse.notFound :=
  ⟨C1_one_shot_via_route.1 [("T1", dRec)] "T1" 5 dRec (by decide),
   C1_one_shot_via_route.2 [("T1", dRec)] "T1" 5 6 [1, 2, 3] (by decide)⟩

/-- C5 counterexample: the expiry comparison is strict
(`now - timestamp > EXPIRY_TIME`): a record inserted at time 0 is still
returned by `get` at time exactly `0 + EXPIRY_TIME`, although the claim
demands not-found at every time ≥ T + TTL. -/
theorem C5_boundary_counterexample :
    0 + EXPIRY_TIME ≤ EXPIRY_TIME ∧
    (storeGet true true [("T1", dRec)] "T1" EXPIRY_TIME).1 = some dRec := by
  constructor <;> decide

/-- C5 (amended, strict boundary): a never-retrieved record inserted at time
T is returned by `get` at any time ≤ T + TTL, and at any time > T + TTL the
`get` returns not-found and removes the expired record; the periodic sweep
keeps exactly the records whose age is within the TTL. -/
theorem C5_ttl_eviction :
    ∀ (s : Store) (t : String) (d : AnalysisData) (now : Nat),
      (lookupTok s t = some d →
        (d.timestamp + EXPIRY_TIME < now →
          (storeGet true true s t now).1 = none ∧
          lookupTok (storeGet true true s t now).2 t = none) ∧
        (now ≤ d.timestamp + EXPIRY_TIME → storeGet true true s t now = (some d, s))) ∧
      ((s.map Prod.fst).Nodup →
        sweep s now = s.filter (fun kd => decide (now ≤ kd.2.timestamp + EXPIRY_TIME))) := by
  intro s t d now
  refine ⟨fun hl => ⟨fun hexp => ?_, fun hfresh => ?_⟩, fun hnd => sweep_eq_filter s now hnd⟩
  · have he : now - d.timestamp > EXPIRY_TIME := by omega
    have hdel : storeDelete true s t = eraseTok s t := by simp [storeDelete, hl]
    constructor
    · simp [storeGet, hl, he]
    · simp only [storeGet, hl, if_pos rfl, if_pos he, hdel]
      exact lookupTok_eraseTok s t
  · have he : ¬ (now - d.timestamp > EXPIRY_TIME) := by omega
    simp [storeGet, hl, he]

/-- C5 witness: a record stamped 0 in a singleton store is returned at time
`EXPIRY_TIME`, is gone (and evicted) at time `EXPIRY_TIME + 1`, and the
sweep at that time empties the store. -/
theorem C5_ttl_eviction_witness :
    storeGet true true [("T1", dRec)] "T1" EXPIRY_TIME = (some dRec, [("T1", dRec)]) ∧
    ((storeGet true true [("T1", dRec)] "T1" (EXPIRY_TIME + 1)).1 = none ∧
      lookupTok (storeGet true true [("T1", dRec)] "T1" (EXPIRY_TIME + 1)).2 "T1" = none) ∧
    sweep [("T1", dRec)] (EXPIRY_TIME + 1) = [] := by
  refine ⟨((C5_ttl_eviction [("T1", dRec)] "T1" dRec EXPIRY_TIME).1 (by decide)).2 (by decide),
    ((C5_ttl_eviction [("T1", dRec)] "T1" dRec (EXPIRY_TIME + 1)).1 (by decide)).1 (by decide),
    ?_⟩
  rw [(C5_ttl_eviction [("T1", dRec)] "T1" dRec (EXPIRY_TIME + 1)).2 (by decide)]
  decide

/-- C6 counterexample: `analysisResults.set` is an unconditional
`writeFileSync`; a second `set` with a token that is already present
succeeds and silently replaces the stored record (the claim demands a fatal
error with the existing record left unchanged). -/
theorem C6_overwrite_counterexample :
    storeSet true (storeSet true [] "T1" dRec) "T1" dRec2 = [("T1", dRec2)] ∧
    lookupTok (storeSet true (storeSet true [] "T1" dRec) "T1" dRec2) "T1" = some dRec2 := by
  constructor <;> decide

/-- C6 (amended): `set` performs no presence check: a `set` with a token
that is already present never fails and silently overwrites — afterwards the
token maps to the new record, and the old record is gone. -/
theorem C6_set_overwrites :
    ∀ (s : Store) (t : String) (dOld dNew : AnalysisData),
      lookupTok s t = some dOld →
      lookupTok (storeSet true s t dNew) t = some dNew := by
  intro s t dOld dNew _
  simp [storeSet, lookupTok]

/-- C6 witness: overwriting a present token at a concrete store. -/
theorem C6_set_overwrites_witness :
    lookupTok (storeSet true [("T1", dRec)] "T1" dRec2) "T1" = some dRec2 :=
  C6_set_overwrites [("T1", dRec)] "T1" dRec dRec2 (by decide)

/-- C10: every store operation is a total function for every filesystem
outcome (the `try`/`catch` of the source absorbs all primitive failures):
a failing write leaves the store unchanged — in particular the token is
absent afterwards if it was absent before, so a silently "successful" `set`
may leave no record; a failing read makes `get` return not-found without
touching the store; a failing unlink makes `delete` a no-op; a failing
`readdirSync` makes `keys` return the empty list; and under any combination
of outcomes `get` either leaves the store unchanged or erases exactly the
queried token. -/
theorem C10_store_ops_total :
    (∀ (s : Store) (t : String) (d : AnalysisData), storeSet false s t d = s) ∧
    (∀ (t : String) (d : AnalysisData), lookupTok (storeSet false [] t d) t = none) ∧
    (∀ (unlinkOk : Bool) (s : Store) (t : String) (now : Nat),
        storeGet false unlinkOk s t now = (none, s)) ∧
    (∀ (s : Store) (t : String), storeDelete false s t = s) ∧
    (∀ s : Store, storeKeys false s = []) ∧
    (∀ (readOk unlinkOk : Bool) (s : Store) (t : String) (now : Nat),
        (storeGet readOk unlinkOk s t now).2 = s ∨
        (storeGet readOk unlinkOk s t now).2 = eraseTok s t) := by
  refine ⟨fun s t d => rfl, fun t d => rfl, fun unlinkOk s t now => ?_,
    fun s t => ?_, fun s => rfl, fun readOk unlinkOk s t now => ?_⟩
  · cases hl : lookupTok s t <;> simp [storeGet, hl]
  · cases hl : lookupTok s t <;> simp [storeDelete, hl]
  · cases hl : lookupTok s t with
    | none => left; simp [storeGet, hl]
    | some d =>
      cases readOk with
      | false => left; simp [storeGet, hl]
      | true =>
        by_cases he : now - d.timestamp > EXPIRY_TIME
        · cases unlinkOk with
          | false => left; simp [storeGet, storeDelete, hl, he]
          | true => right; simp [storeGet, storeDelete, hl, he]
        · left; simp [storeGet, hl, he]

/-- One classified entry of the submitted archive, mirroring the
`FileMetadata` record built in the first and second passes of
`analyzeZipFile` (`path`, `size`, `mtime`, `hash`, and the four
classification flags). -/
structure FileMetadata where
  path : String
  size : Nat
  mtime : Nat
  hash : String
  isScreenshot : Bool
  isLarge : Bool
  isOld : Bool
  isDuplicate : Bool
deriving DecidableEq, Repr

/-- `files.filter((f) => f.isDuplicate)`. -/
def duplicateFiles (files : List FileMetadata) : List FileMetadata :=
  files.filter fun f => f.isDuplicate

/-- `files.filter((f) => f.isOld && !f.isDuplicate)`. -/
def archivedOldFiles (files : List FileMetadata) : List FileMetadata :=
  files.filter fun f => f.isOld && !f.isDuplicate

/-- `files.filter((f) => f.isScreenshot && !f.isDuplicate)`. -/
def unwantedScreenshots (files : List FileMetadata) : List FileMetadata :=
  files.filter fun f => f.isScreenshot && !f.isDuplicate

/-- `files.filter((f) => f.isLarge && !f.isDuplicate)`. -/
def largeFiles (files : List FileMetadata) : List FileMetadata :=
  files.filter fun f => f.isLarge && !f.isDuplicate

/-- `files.filter((f) => !f.isDuplicate && !f.isOld && !f.isScreenshot)`. -/
def filesToKeep (files : List FileMetadata) : List FileMetadata :=
  files.filter fun f => !f.isDuplicate && !f.isOld && !f.isScreenshot

/-- `files.filter((f) => f.isDuplicate || f.isOld || f.isScreenshot)`. -/
def filesToRemove (files : List FileMetadata) : List FileMetadata :=
  files.filter fun f => f.isDuplicate || f.isOld || f.isScreenshot

/-- `totalFilesAnalyzed: files.length`. -/
def totalFilesAnalyzed (files : List FileMetadata) : Nat := files.length

/-- `totalFilesRemoved: filesToRemove.length`. -/
def totalFilesRemoved (files : List FileMetadata) : Nat := (filesToRemove files).length

theorem length_filter_split (p q : FileMetadata → Bool)
    (hpq : ∀ f, q f = !p f) (l : List FileMetadata) :
    (l.filter p).length + (l.filter q).length = l.length := by
  induction l with
  | nil => rfl
  | cons a rest ih =>
    cases hp : p a
    · have hq : q a = true := by rw [hpq]; simp [hp]
      simp [List.filter_cons, hp, hq]
      omega
    · have hq : q a = false := by rw [hpq]; simp [hp]
      simp [List.filter_cons, hp, hq]
      omega

/-- Octuple sample entries for the concrete-input theorems: `eKeep` has no
flag set, `eOldShot` is old and screenshot-like but not a duplicate,
`eDup` is a duplicate that is also old, screenshot-like and large,
`eLargeOnly` is only oversized, `eZero` has size 0. -/
def eKeep : FileMetadata := ⟨"a.txt", 10, 0, "h1", false, false, false, false⟩

def eOldShot : FileMetadata := ⟨"IMG_0001.png", 20, 0, "h2", true, false, true, false⟩

def eDup : FileMetadata := ⟨"copy.png", 30, 0, "h2", true, true, true, true⟩

def eLargeOnly : FileMetadata := ⟨"big.bin", 40, 0, "h3", false, true, false, false⟩

def eZero : FileMetadata := ⟨"empty.txt", 0, 0, "h4", false, false, false, false⟩

/-- C2 counterexample: a non-duplicate entry that is both old and
screenshot-like is counted in BOTH the stale aggregate and the
screenshot-like aggregate, contradicting the claim that a removed
non-duplicate entry is attributed to exactly one of those counts. -/
theorem C2_double_count_counterexample :
    archivedOldFiles [eOldShot] = [eOldShot] ∧
    unwantedScreenshots [eOldShot] = [eOldShot] ∧
    (archivedOldFiles [eOldShot]).length = 1 ∧
    (unwantedScreenshots [eOldShot]).length = 1 := by
  refine ⟨by decide, by decide, by decide, by decide⟩

/-- C2 (amended): duplicate status takes priority — a duplicate entry is
counted only in the duplicate aggregate and is excluded from the stale,
screenshot-like and oversized aggregates regardless of its other flags —
but for a removed non-duplicate entry the stale and screenshot-like counts
are NOT mutually exclusive: such an entry is counted in the stale aggregate
iff it is old and in the screenshot-like aggregate iff it is
screenshot-like, and may appear in both. -/
theorem C2_duplicate_priority :
    ∀ (files : List FileMetadata) (f : FileMetadata), f ∈ files →
      (f.isDuplicate = true →
        f ∈ duplicateFiles files ∧ f ∉ archivedOldFiles files ∧
        f ∉ unwantedScreenshots files ∧ f ∉ largeFiles files) ∧
      (f.isDuplicate = false →
        f ∉ duplicateFiles files ∧
        (f ∈ archivedOldFiles files ↔ f.isOld = true) ∧
        (f ∈ unwantedScreenshots files ↔ f.isScreenshot = true) ∧
        (f ∈ largeFiles files ↔ f.isLarge = true)) := by
  intro files f hf
  constructor
  · intro hd
    refine ⟨List.mem_filter.mpr ⟨hf, hd⟩, ?_, ?_, ?_⟩ <;>
      · intro hmem
        have := (List.mem_filter.mp hmem).2
        simp [hd] at this
  · intro hd
    refine ⟨?_, ?_, ?_, ?_⟩
    · intro hmem
      have := (List.mem_filter.mp hmem).2
      simp [hd] at this
    all_goals
      constructor
      · intro hmem
        have := (List.mem_filter.mp hmem).2
        simp [hd] at this
        exact this
      · intro hflag
        exact List.mem_filter.mpr ⟨hf, by simp [hd, hflag]⟩

/-- C2 witness: the duplicate `eDup` (old, screenshot-like and large as
well) lands only in the duplicate aggregate, and the non-duplicate
`eOldShot` lands in the stale aggregate. -/
theorem C2_duplicate_priority_witness :
    eDup ∈ duplicateFiles [eDup, eOldShot] ∧
    eDup ∉ archivedOldFiles [eDup, eOldShot] ∧
    eDup ∉ unwantedScreenshots [eDup, eOldShot] ∧
    eDup ∉ largeFiles [eDup, eOldShot] ∧
    eOldShot ∈ archivedOldFiles [eDup, eOldShot] := by
  have h1 := (C2_duplicate_priority [eDup, eOldShot] eDup (by decide)).1 (by decide)
  have h2 := ((C2_duplicate_priority [eDup, eOldShot] eOldShot (by decide)).2 (by decide)).2.1
  exact ⟨h1.1, h1.2.1, h1.2.2.1, h1.2.2.2, h2.mpr (by decide)⟩

/-- C3: `filesToKeep` and `filesToRemove` partition the classified entry
list — an entry is kept iff it is not removed, every entry is in exactly one
of the two, their lengths sum to the whole list's, an entry whose only set
flag is `isLarge` is kept (the oversized flag never justifies removal), and
`totalFilesAnalyzed` equals the kept count plus `totalFilesRemoved`. -/
theorem C3_partition :
    ∀ files : List FileMetadata,
      (filesToKeep files).length + (filesToRemove files).length = files.length ∧
      (∀ f, f ∈ files → (f ∈ filesToKeep files ↔ f ∉ filesToRemove files)) ∧
      (∀ f, f ∈ files → f ∈ filesToKeep files ∨ f ∈ filesToRemove files) ∧
      (∀ f, f ∈ files → f.isDuplicate = false → f.isOld = false → f.isScreenshot = false →
        f ∈ filesToKeep files) ∧
      totalFilesAnalyzed files = (filesToKeep files).length + totalFilesRemoved files := by
  intro files
  have hsplit : (filesToKeep files).length + (filesToRemove files).length = files.length := by
    refine length_filter_split _ _ (fun f => ?_) files
    cases f.isDuplicate <;> cases f.isOld <;> cases f.isScreenshot <;> rfl
  refine ⟨hsplit, fun f hf => ?_, fun f hf => ?_, fun f hf hd ho hs => ?_, ?_⟩
  · constructor
    · intro hk hr
      have h1 := (List.mem_filter.mp hk).2
      have h2 := (List.mem_filter.mp hr).2
      revert h1 h2
      cases f.isDuplicate <;> cases f.isOld <;> cases f.isScreenshot <;> decide
    · intro hr
      refine List.mem_filter.mpr ⟨hf, ?_⟩
      by_contra hkeep
      refine hr (List.mem_filter.mpr ⟨hf, ?_⟩)
      revert hkeep
      cases f.isDuplicate <;> cases f.isOld <;> cases f.isScreenshot <;> decide
  · by_cases hr : f ∈ filesToRemove files
    · right; exact hr
    · left
      refine List.mem_filter.mpr ⟨hf, ?_⟩
      by_contra hkeep
      refine hr (List.mem_filter.mpr ⟨hf, ?_⟩)
      revert hkeep
      cases f.isDuplicate <;> cases f.isOld <;> cases f.isScreenshot <;> decide
  · exact List.mem_filter.mpr ⟨hf, by simp [hd, ho, hs]⟩
  · unfold totalFilesAnalyzed totalFilesRemoved
    omega

/-- C3 witness: the four-entry sample list splits into keep = the clean
entry plus the merely-large entry, remove = the duplicate and the
old screenshot; 4 analyzed = 2 kept + 2 removed. -/
theorem C3_partition_witness :
    (filesToKeep [eKeep, eOldShot, eDup, eLargeOnly]).length +
        (filesToRemove [eKeep, eOldShot, eDup, eLargeOnly]).length = 4 ∧
    eLargeOnly ∈ filesToKeep [eKeep, eOldShot, eDup, eLargeOnly] ∧
    totalFilesAnalyzed [eKeep, eOldShot, eDup, eLargeOnly] =
      (filesToKeep [eKeep, eOldShot, eDup, eLargeOnly]).length +
        totalFilesRemoved [eKeep, eOldShot, eDup, eLargeOnly] := by
  have h := C3_partition [eKeep, eOldShot, eDup, eLargeOnly]
  exact ⟨h.1, h.2.2.2.1 eLargeOnly (by decide) (by decide) (by decide) (by decide), h.2.2.2.2⟩

/-- `files.reduce((sum, f) => sum + f.size, 0)`: total byte count. -/
def sumSizes : List FileMetadata → Nat
  | [] => 0
  | f :: rest => f.size + sumSizes rest

/-- `1024 * 1024` — the byte-to-MB divisor. -/
def MBytes : ℚ := 1024 * 1024

/-- The raw (pre-rounding) `originalSizeMB` of `analyzeZipFile`. -/
def originalSizeMBraw (files : List FileMetadata) : ℚ :=
  (sumSizes files : ℚ) / MBytes

/-- The raw (pre-rounding) `cleanedSizeMB`: total size of `filesToKeep`. -/
def cleanedSizeMBraw (files : List FileMetadata) : ℚ :=
  (sumSizes (filesToKeep files) : ℚ) / MBytes

/-- `Number.parseFloat(x.toFixed(1))` for the nonnegative values arising
here: round half up to one decimal. -/
def round1 (q : ℚ) : ℚ := (round (q * 10) : ℚ) / 10

/-- JavaScript division producing a finite number only for a nonzero
denominator; `none` stands for the non-finite result (here the `0/0` `NaN`
of an empty or all-zero-size archive). -/
def jsDivQ (a b : ℚ) : Option ℚ :=
  if b = 0 then none else some (a / b)

/-- `reductionPercentage = ((originalSizeMB - cleanedSizeMB) / originalSizeMB) * 100`
followed by `Number.parseFloat(reductionPercentage.toFixed(1))`, with no
guard on `originalSizeMB`. -/
def reductionPercentage (files : List FileMetadata) : Option ℚ :=
  (jsDivQ (originalSizeMBraw files - cleanedSizeMBraw files) (originalSizeMBraw files)).map
    fun q => round1 (q * 100)

theorem sumSizes_filter_le (p : FileMetadata → Bool) (l : List FileMetadata) :
    sumSizes (l.filter p) ≤ sumSizes l := by
  induction l with
  | nil => exact Nat.le_refl 0
  | cons a rest ih =>
    cases hp : p a
    · have hf : (a :: rest).filter p = rest.filter p := by simp [List.filter_cons, hp]
      rw [hf]
      show sumSizes (rest.filter p) ≤ a.size + sumSizes rest
      omega
    · have hf : (a :: rest).filter p = a :: rest.filter p := by simp [List.filter_cons, hp]
      rw [hf]
      show a.size + sumSizes (rest.filter p) ≤ a.size + sumSizes rest
      omega

/-- C4 counterexample: for an archive whose entries total 0 bytes the code
divides 0 by 0 — the reduction percentage is the non-finite `NaN`
(modelled `none`), not the claimed 0. -/
theorem C4_zero_size_counterexample :
    originalSizeMBraw [eZero] = 0 ∧ reductionPercentage [eZero] = none := by
  have h0 : originalSizeMBraw [eZero] = 0 := by
    norm_num [originalSizeMBraw, sumSizes, eZero]
  exact ⟨h0, by simp [reductionPercentage, jsDivQ, h0]⟩

/-- C4 (amended): when the original total size is 0 the cleaned total is
also 0 and the unguarded division yields `NaN` (`none`), not 0 and not a
thrown division fault; otherwise the reduction percentage is
`(original − cleaned) / original × 100` rounded to one decimal place,
equivalently `100 − 100·cleaned/original` rounded to one decimal place. -/
theorem C4_reduction_math :
    ∀ files : List FileMetadata,
      (originalSizeMBraw files = 0 →
        cleanedSizeMBraw files = 0 ∧ reductionPercentage files = none) ∧
      (originalSizeMBraw files ≠ 0 →
        reductionPercentage files =
          some (round1 (100 - 100 * cleanedSizeMBraw files / originalSizeMBraw files))) := by
  intro files
  constructor
  · intro h0
    have hM : (MBytes : ℚ) ≠ 0 := by norm_num [MBytes]
    have hsum : (sumSizes files : ℚ) = 0 := by
      rcases div_eq_zero_iff.mp h0 with h | h
      · exact h
      · exact absurd h hM
    have hsum' : sumSizes files = 0 := by exact_mod_cast hsum
    have hkeep : sumSizes (filesToKeep files) = 0 := by
      have := sumSizes_filter_le (fun f => !f.isDuplicate && !f.isOld && !f.isScreenshot) files
      unfold filesToKeep
      omega
    refine ⟨?_, ?_⟩
    · unfold cleanedSizeMBraw
      unfold filesToKeep at hkeep ⊢
      rw [hkeep]
      simp
    · simp [reductionPercentage, jsDivQ, h0]
  · intro h0
    have halg : (originalSizeMBraw files - cleanedSizeMBraw files) / originalSizeMBraw files * 100
        = 100 - 100 * cleanedSizeMBraw files / originalSizeMBraw files := by
      field_simp
      ring
    simp [reductionPercentage, jsDivQ, h0, halg]

/-- C4 witness: the zero-size archive `[eZero]` yields `none` (`NaN`), and
the all-kept archive `[eKeep]` yields a reduction of exactly 0%. -/
theorem C4_reduction_math_witness :
    (cleanedSizeMBraw [eZero] = 0 ∧ reductionPercentage [eZero] = none) ∧
    reductionPercentage [eKeep] =
      some (round1 (100 - 100 * cleanedSizeMBraw [eKeep] / originalSizeMBraw [eKeep])) :=
  ⟨(C4_reduction_math [eZero]).1 (by norm_num [originalSizeMBraw, sumSizes, eZero]),
   (C4_reduction_math [eKeep]).2
     (by norm_num [originalSizeMBraw, sumSizes, eKeep, MBytes])⟩

/-- One record of the loaded ZIP (`zip.files`): archive-relative path,
directory flag, and the outcome of `zipEntry.async("nodebuffer")` —
`some bytes` when the entry's raw bytes can be read, `none` when the read
rejects (corrupt record). -/
structure ZipEntry where
  path : String
  dir : Bool
  content : Option (List Nat)
deriving DecidableEq, Repr

/-- `zip.files[path]`. -/
def findEntry : List ZipEntry → String → Option ZipEntry
  | [], _ => none
  | e :: rest, p => if e.path = p then some e else findEntry rest p

/-- The keep path resolves to a readable non-directory entry of the
original archive. -/
def readableEntry (entries : List ZipEntry) (p : String) : Bool :=
  match findEntry entries p with
  | some e => !e.dir && e.content.isSome
  | none => false

/-- The cleaned-ZIP loop of `analyzeZipFile`: for each keep path, look the
entry up in the original archive (`zip.files[file.path]`); a missing or
directory entry is silently skipped (`if (zipEntry && !zipEntry.dir)`);
otherwise the entry is re-read — a rejecting read fails the whole rewrite
(`none`, the promise rejection of `analyzeZipFile`: no partial archive is
emitted), a successful read adds the bytes under the original relative
path. -/
def rewriteKept (entries : List ZipEntry) : List String → Option (List (String × List Nat))
  | [] => some []
  | p :: rest =>
    match findEntry entries p with
    | some e =>
      if e.dir then rewriteKept entries rest
      else
        match e.content with
        | some bytes => (rewriteKept entries rest).map fun acc => (p, bytes) :: acc
        | none => none
    | none => rewriteKept entries rest

/-- C7: when every keep path names a readable non-directory entry of the
original archive — which holds for `filesToKeep`, whose paths are the
non-directory entries of the same ZIP, already read once in the first
pass — the rewritten archive is produced and contains exactly the keep
paths in order, each carrying the bytes of its original entry; and if any
keep path's non-directory entry cannot be re-read, the whole rewrite fails
with no partial archive. -/
theorem C7_rewrite_exact :
    ∀ (entries : List ZipEntry) (keep : List String),
      (keep.all (fun p => readableEntry entries p) = true →
        ∃ out, rewriteKept entries keep = some out ∧
          out.map Prod.fst = keep ∧
          (∀ p b, (p, b) ∈ out →
            ∃ e, findEntry entries p = some e ∧ e.dir = false ∧ e.content = some b)) ∧
      (∀ p e, p ∈ keep → findEntry entries p = some e → e.dir = false →
        e.content = none → rewriteKept entries keep = none) := by
  intro entries keep
  constructor
  · intro hall
    induction keep with
    | nil => exact ⟨[], rfl, rfl, fun p b hpb => absurd hpb (List.not_mem_nil _)⟩
    | cons p rest ih =>
      rw [List.all_cons, Bool.and_eq_true] at hall
      obtain ⟨hp, hrest⟩ := hall
      obtain ⟨out', hout', hmap', hmem'⟩ := ih hrest
      unfold readableEntry at hp
      cases hfind : findEntry entries p with
      | none => rw [hfind] at hp; exact absurd hp (by simp)
      | some e =>
        rw [hfind] at hp
        rw [Bool.and_eq_true, Bool.not_eq_true'] at hp
        obtain ⟨hdir, hsome⟩ := hp
        cases hcont : e.content with
        | none => rw [hcont] at hsome; exact absurd hsome (by simp)
        | some bytes =>
          refine ⟨(p, bytes) :: out', ?_, ?_, ?_⟩
          · simp [rewriteKept, hfind, hdir, hcont, hout']
          · simp [hmap']
          · intro q c hqc
            rcases List.mem_cons.mp hqc with hqc | hqc
            · have hq : q = p := congrArg Prod.fst hqc
              have hc : c = bytes := congrArg Prod.snd hqc
              subst hq; subst hc
              exact ⟨e, hfind, hdir, hcont⟩
            · exact hmem' q c hqc
  · intro p e hp hfind hdir hcont
    induction keep with
    | nil => exact absurd hp (List.not_mem_nil _)
    | cons q rest ih =>
      rcases List.mem_cons.mp hp with hq | hq
      · subst hq
        simp [rewriteKept, hfind, hdir, hcont]
      · have hnone := ih hq
        cases hfq : findEntry entries q with
        | none => simp [rewriteKept, hfq, hnone]
        | some e' =>
          by_cases hd : e'.dir = true
          · simp [rewriteKept, hfq, hd, hnone]
          · cases hc' : e'.content with
            | none => simp [rewriteKept, hfq, hd, hc']
            | some b' => simp [rewriteKept, hfq, hd, hc', hnone]

/-- Sample ZIP entries for the C7 witness: a readable file, a directory
record, and an unreadable file record. -/
def zA : ZipEntry := ⟨"a.txt", false, some [1, 2]⟩

def zDir : ZipEntry := ⟨"d/", true, none⟩

def zBad : ZipEntry := ⟨"bad.bin", false, none⟩

/-- C7 witness: rewriting keep = ["a.txt"] over the sample archive emits
exactly that entry, and including the unreadable "bad.bin" fails the whole
rewrite. -/
theorem C7_rewrite_exact_witness :
    (∃ out, rewriteKept [zA, zDir, zBad] ["a.txt"] = some out ∧
      out.map Prod.fst = ["a.txt"] ∧
      (∀ p b, (p, b) ∈ out →
        ∃ e, findEntry [zA, zDir, zBad] p = some e ∧ e.dir = false ∧
          e.content = some b)) ∧
    rewriteKept [zA, zDir, zBad] ["a.txt", "bad.bin"] = none :=
  ⟨(C7_rewrite_exact [zA, zDir, zBad] ["a.txt"]).1 (by decide),
   (C7_rewrite_exact [zA, zDir, zBad] ["a.txt", "bad.bin"]).2 "bad.bin" zBad
     (by decide) (by decide) (by decide) (by decide)⟩

/-- ASCII case canonicalisation: the lowering performed by a
case-insensitive JavaScript regex or by `toLowerCase()` on the ASCII
letters appearing in the patterns and extension tables of the source. -/
def lowerChar (c : Char) : Char :=
  if 'A' ≤ c ∧ c ≤ 'Z' then Char.ofNat (c.toNat + 32) else c

/-- Lowercase an entire character list. -/
def strLower (s : List Char) : List Char := s.map lowerChar

/-- The needle is an initial run of the haystack. -/
def leadsB : List Char → List Char → Bool
  | [], _ => true
  | _ :: _, [] => false
  | a :: as, b :: bs => a == b && leadsB as bs

/-- The needle occurs contiguously somewhere inside the haystack. -/
def insideB (needle : List Char) : List Char → Bool
  | [] => leadsB needle []
  | c :: rest => leadsB needle (c :: rest) || insideB needle rest

/-- JavaScript `\d`: a decimal digit. -/
def isDigitB (c : Char) : Bool := '0' ≤ c && c ≤ '9'

/-- `/lit/i.test(s)` for an unanchored lowercase-ASCII literal `lit`:
a case-insensitive substring test anywhere in `s`. -/
def testSubstrCI (lit : List Char) (s : List Char) : Bool :=
  insideB lit (strLower s)

/-- `/^pre\d+/i.test(s)` for a lowercase-ASCII literal `pre`: `s` must
begin (anchored at the start of the WHOLE string, there is no `m` flag)
with `pre` followed by at least one decimal digit, case-insensitively. -/
def anchorPrefDigit (pre : List Char) (s : List Char) : Bool :=
  leadsB pre (strLower s) &&
    match (strLower s).drop pre.length with
    | [] => false
    | c :: _ => isDigitB c

/-- `SCREENSHOT_PATTERNS.some((pattern) => pattern.test(s))` with
`SCREENSHOT_PATTERNS = [/screenshot/i, /screen shot/i, /^img_\d+/i,
/^image_\d+/i, /^photo_\d+/i]`. -/
def screenshotTests (s : List Char) : Bool :=
  testSubstrCI "screenshot".data s || testSubstrCI "screen shot".data s ||
    anchorPrefDigit "img_".data s || anchorPrefDigit "image_".data s ||
    anchorPrefDigit "photo_".data s

/-- The `isScreenshot` flag of `analyzeZipFile`: the pattern list is tested
against the FULL archive path of the entry. -/
def isScreenshotPath (p : String) : Bool := screenshotTests p.data

/-- The base name of a path: everything after the last '/'. -/
def baseNameChars (p : List Char) : List Char :=
  (p.reverse.takeWhile fun c => !(c == '/')).reverse

theorem leadsB_iff (n : List Char) : ∀ h : List Char,
    leadsB n h = true ↔ ∃ t, h = n ++ t := by
  induction n with
  | nil =>
    intro h
    exact ⟨fun _ => ⟨h, rfl⟩, fun _ => rfl⟩
  | cons a as ih =>
    intro h
    cases h with
    | nil =>
      constructor
      · intro hf; exact absurd hf (by simp [leadsB])
      · rintro ⟨t, ht⟩; exact absurd ht (by simp)
    | cons b bs =>
      rw [show leadsB (a :: as) (b :: bs) = (a == b && leadsB as bs) from rfl,
        Bool.and_eq_true, beq_iff_eq, ih bs]
      constructor
      · rintro ⟨hab, t, ht⟩
        exact ⟨t, by simp [hab, ht]⟩
      · rintro ⟨t, ht⟩
        injection ht with h1 h2
        exact ⟨h1.symm, t, h2⟩

theorem insideB_iff (n : List Char) : ∀ h : List Char,
    insideB n h = true ↔ ∃ pre post, h = pre ++ n ++ post := by
  intro h
  induction h with
  | nil =>
    rw [show insideB n [] = leadsB n [] from rfl, leadsB_iff n []]
    constructor
    · rintro ⟨t, ht⟩; exact ⟨[], t, ht⟩
    · rintro ⟨pre, post, hp⟩
      rcases List.append_eq_nil.mp hp.symm with ⟨hpren, hpost⟩
      rcases List.append_eq_nil.mp hpren with ⟨hpre, hn⟩
      exact ⟨[], by simp [hn]⟩
  | cons c rest ih =>
    rw [show insideB n (c :: rest) = (leadsB n (c :: rest) || insideB n rest) from rfl,
      Bool.or_eq_true, leadsB_iff n (c :: rest), ih]
    constructor
    · rintro (⟨t, ht⟩ | ⟨pre, post, hp⟩)
      · exact ⟨[], t, by simpa using ht⟩
      · exact ⟨c :: pre, post, by simp [hp]⟩
    · rintro ⟨pre, post, hp⟩
      cases pre with
      | nil => left; exact ⟨post, by simpa using hp⟩
      | cons x xs =>
        right
        injection hp with h1 h2
        exact ⟨xs, post, h2⟩

theorem anchorPrefDigit_iff (pre s : List Char) :
    anchorPrefDigit pre s = true ↔
      ∃ c rest, strLower s = pre ++ c :: rest ∧ isDigitB c = true := by
  unfold anchorPrefDigit
  rw [Bool.and_eq_true, leadsB_iff pre (strLower s)]
  constructor
  · rintro ⟨⟨t, ht⟩, hd⟩
    rw [ht, List.drop_left] at hd
    cases t with
    | nil => simp at hd
    | cons c rest => exact ⟨c, rest, ht, hd⟩
  · rintro ⟨c, rest, hs, hd⟩
    refine ⟨⟨c :: rest, hs⟩, ?_⟩
    rw [hs, List.drop_left]
    exact hd

/-- C8 counterexample: the patterns are applied to the whole path, not the
base name. "photos/img_1.png" has a base name matching `img_` + digit yet
is NOT flagged (the `^` anchor sees the directory part), while
"screenshots/holiday.jpg" has a clean base name yet IS flagged (the
substring test sees the directory name). -/
theorem C8_basename_counterexample :
    isScreenshotPath "photos/img_1.png" = false ∧
    screenshotTests (baseNameChars "photos/img_1.png".data) = true ∧
    isScreenshotPath "screenshots/holiday.jpg" = true ∧
    screenshotTests (baseNameChars "screenshots/holiday.jpg".data) = false := by
  refine ⟨by decide, by decide, by decide, by decide⟩

/-- C8 (amended): an entry is flagged screenshot-like iff its FULL path
(not its base name), lowercased, contains "screenshot" or "screen shot" as
a substring, or begins — at the start of the whole path — with "img_",
"image_" or "photo_" followed by a decimal digit. -/
theorem C8_screenshot_patterns :
    ∀ p : String,
      isScreenshotPath p = true ↔
        ((((∃ pre post, strLower p.data = pre ++ "screenshot".data ++ post) ∨
           (∃ pre post, strLower p.data = pre ++ "screen shot".data ++ post)) ∨
          (∃ c rest, strLower p.data = "img_".data ++ c :: rest ∧ isDigitB c = true)) ∨
         (∃ c rest, strLower p.data = "image_".data ++ c :: rest ∧ isDigitB c = true)) ∨
        (∃ c rest, strLower p.data = "photo_".data ++ c :: rest ∧ isDigitB c = true) := by
  intro p
  unfold isScreenshotPath screenshotTests testSubstrCI
  simp only [Bool.or_eq_true]
  rw [insideB_iff, insideB_iff, anchorPrefDigit_iff, anchorPrefDigit_iff, anchorPrefDigit_iff]

/-- C8 witness: "IMG_003.png" begins with `img_` + digit after lowering, so
it is flagged. -/
theorem C8_screenshot_patterns_witness :
    isScreenshotPath "IMG_003.png" = true :=
  (C8_screenshot_patterns "IMG_003.png").mpr
    (Or.inl (Or.inl (Or.inr ⟨'0', "03.png".data, by decide, by decide⟩)))

/-- `path.split(".")`: splits on every '.', keeping empty segments; a
string with no '.' yields the one-element list holding the whole string. -/
def splitOnDot : List Char → List (List Char)
  | [] => [[]]
  | c :: rest =>
    if c = '.' then [] :: splitOnDot rest
    else
      match splitOnDot rest with
      | [] => [[c]]
      | seg :: segs => (c :: seg) :: segs

/-- `.pop()` on the (always nonempty) split result: its last segment. -/
def lastSegD : List (List Char) → List Char
  | [] => []
  | [s] => s
  | _ :: s2 :: rest => lastSegD (s2 :: rest)

/-- `file.path.split(".").pop()?.toLowerCase() || "unknown"` of
`calculateFileTypeBreakdown`: the last dot-segment of the path, lowercased,
with the empty string (falsy) replaced by "unknown". -/
def extOfPath (p : String) : String :=
  let low := strLower (lastSegD (splitOnDot p.data))
  if low.isEmpty then "unknown" else String.mk low

def imageExts : List String :=
  ["jpg", "jpeg", "png", "gif", "bmp", "webp", "svg", "ico", "heic", "heif"]

def videoExts : List String := ["mp4", "mov", "avi", "mkv", "webm", "flv", "wmv", "m4v"]

def audioExts : List String := ["mp3", "wav", "flac", "aac", "m4a", "ogg", "wma"]

def documentExts : List String := ["pdf", "doc", "docx", "txt", "rtf", "odt", "pages"]

def spreadsheetExts : List String := ["xls", "xlsx", "csv", "ods", "numbers"]

def presentationExts : List String := ["ppt", "pptx", "key", "odp"]

def archiveExts : List String := ["zip", "rar", "7z", "tar", "gz", "bz2"]

def codeExts : List String :=
  ["js", "ts", "jsx", "tsx", "py", "java", "cpp", "c", "h", "css", "html", "json",
   "xml", "yaml", "yml"]

/-- `categorizeFileType(ext)`: the nested `includes` chain of the source,
in source order. -/
def categorizeFileType (ext : String) : String :=
  if imageExts.contains ext then "Images"
  else if videoExts.contains ext then "Videos"
  else if audioExts.contains ext then "Audio"
  else if documentExts.contains ext then "Documents"
  else if spreadsheetExts.contains ext then "Spreadsheets"
  else if presentationExts.contains ext then "Presentations"
  else if archiveExts.contains ext then "Archives"
  else if codeExts.contains ext then "Code"
  else "Other"

/-- The category assigned to one entry path by
`calculateFileTypeBreakdown`. -/
def fileCategory (p : String) : String := categorizeFileType (extOfPath p)

/-- The extension appears in some extension table. -/
def knownExt (ext : String) : Bool :=
  imageExts.contains ext || videoExts.contains ext || audioExts.contains ext ||
    documentExts.contains ext || spreadsheetExts.contains ext ||
    presentationExts.contains ext || archiveExts.contains ext || codeExts.contains ext

/-- The path contains a '.' somewhere. -/
def hasDotChar : List Char → Bool
  | [] => false
  | c :: rest => c == '.' || hasDotChar rest

theorem splitOnDot_no_dot (l : List Char) (h : hasDotChar l = false) :
    splitOnDot l = [l] := by
  induction l with
  | nil => rfl
  | cons c rest ih =>
    rw [show hasDotChar (c :: rest) = (c == '.' || hasDotChar rest) from rfl,
      Bool.or_eq_false_iff] at h
    obtain ⟨hc, hrest⟩ := h
    have hc' : ¬ (c = '.') := by simpa using hc
    simp only [splitOnDot, if_neg hc', ih hrest]

/-- C9 counterexample: a file named just "jpg" — no dot, hence no extension
in the usual sense — is categorized as "Images", not the claimed "Other":
`split(".").pop()` on a dotless name returns the whole name. -/
theorem C9_dotless_counterexample :
    hasDotChar "jpg".data = false ∧ fileCategory "jpg" = "Images" := by
  refine ⟨by decide, by decide⟩

/-- C9 (amended): the tagger always lands in the closed nine-category set,
an extension outside all eight tables lands in "Other", and for a dotless
nonempty path the "extension" is the entire lowercased path — so a dotless
name equal to a known extension is categorized by that table, not as
"Other". -/
theorem C9_category_tagger :
    ∀ p : String,
      (fileCategory p = "Images" ∨ fileCategory p = "Videos" ∨ fileCategory p = "Audio" ∨
        fileCategory p = "Documents" ∨ fileCategory p = "Spreadsheets" ∨
        fileCategory p = "Presentations" ∨ fileCategory p = "Archives" ∨
        fileCategory p = "Code" ∨ fileCategory p = "Other") ∧
      (knownExt (extOfPath p) = false → fileCategory p = "Other") ∧
      (hasDotChar p.data = false → p.data ≠ [] →
        extOfPath p = String.mk (strLower p.data)) := by
  intro p
  refine ⟨?_, ?_, ?_⟩
  · unfold fileCategory categorizeFileType
    split_ifs <;> simp
  · intro hk
    unfold knownExt at hk
    simp only [Bool.or_eq_false_iff] at hk
    obtain ⟨⟨⟨⟨⟨⟨⟨h1, h2⟩, h3⟩, h4⟩, h5⟩, h6⟩, h7⟩, h8⟩ := hk
    have g1 : extOfPath p ∉ imageExts := by simpa using h1
    have g2 : extOfPath p ∉ videoExts := by simpa using h2
    have g3 : extOfPath p ∉ audioExts := by simpa using h3
    have g4 : extOfPath p ∉ documentExts := by simpa using h4
    have g5 : extOfPath p ∉ spreadsheetExts := by simpa using h5
    have g6 : extOfPath p ∉ presentationExts := by simpa using h6
    have g7 : extOfPath p ∉ archiveExts := by simpa using h7
    have g8 : extOfPath p ∉ codeExts := by simpa using h8
    unfold fileCategory categorizeFileType
    simp [g1, g2, g3, g4, g5, g6, g7, g8]
  · intro hnd hne
    have hsplit : splitOnDot p.data = [p.data] := splitOnDot_no_dot p.data hnd
    unfold extOfPath
    rw [hsplit]
    have hlow : (strLower p.data).isEmpty = false := by
      cases hd : p.data with
      | nil => exact absurd hd hne
      | cons c rest => simp [strLower]
    simp only [lastSegD, hlow, Bool.false_eq_true, if_false]

/-- C9 witness: the dotless path "readme" is not a known extension and is
tagged "Other" with the whole name as its "extension". -/
theorem C9_category_tagger_witness :
    fileCategory "readme" = "Other" ∧ extOfPath "readme" = "readme" := by
  have h := C9_category_tagger "readme"
  refine ⟨h.2.1 (by decide), ?_⟩
  rw [h.2.2 (by decide) (by decide)]
  decide
